import Mathlib

/-!
Verification of the athena_viewer navigation/cache engine.

This file gives a shallow embedding, in Lean 4, of the core data model and
operations of the directory-browser engine (src/message_holder/folder_holder.rs,
src/message_holder/file_helper.rs, src/message_holder/mod.rs,
src/state_holder/state_holder.rs) and proves the specified properties about it.

Modelling conventions:
- Filesystem paths are lists of components (absolute, root = []).
- The filesystem is an explicit value: a finite association list from directory
  path to its listing, plus file contents; directory reads and canonicalization
  are total functions over this value.
- Rust Result is modelled by an `Outcome` type with an extra `panic`
  constructor for the places where the original indexes a Vec or divides
  without a guard.
- Machine integers: i32 indices are modelled as Int (the only arithmetic
  performed, rem_euclid with a non-negative divisor, cannot overflow i32);
  usize counters are modelled as Nat with an explicit saturation cap where the
  original uses saturating_add.
- Functions keep the source names. Error-path return values are modelled
  faithfully (same error constructor); the partially-mutated state that Rust
  leaves behind when an operation fails midway is not observable through the
  embedded functions, which return only the error in that case. All theorems
  below quantify over success paths or over the returned error value.
-/

set_option maxHeartbeats 1600000

namespace Athena

/-! ### Error and outcome model (src/app/app_error.rs) -/

inductive AppError where
  | Io (msg : String)
  | Path (msg : String)
  | Parse (msg : String)
  | State (msg : String)
  | Terminal (msg : String)
  | Cache (msg : String)
  deriving DecidableEq, Repr

/-- Result of a Rust call: Ok, Err, or a panic (unguarded indexing / division). -/
inductive Outcome (α : Type) where
  | ok (a : α)
  | err (e : AppError)
  | panic
  deriving DecidableEq, Repr

def Outcome.bind {α β : Type} : Outcome α → (α → Outcome β) → Outcome β
  | .ok a, f => f a
  | .err e, _ => .err e
  | .panic, _ => .panic

instance : Monad Outcome where
  pure := Outcome.ok
  bind := Outcome.bind

def Outcome.toOption {α : Type} : Outcome α → Option α
  | .ok a => some a
  | _ => none

def Outcome.getOk {α : Type} [Inhabited α] : Outcome α → α
  | .ok a => a
  | _ => default

/-- Monadic map over a list, accumulating in order, stopping at the first
error: the shape of every `for ... { ...? }` loop in the source. -/
def mapO {α β : Type} (f : α → Outcome β) : List α → Outcome (List β)
  | [] => .ok []
  | a :: as => do
    let b ← f a
    let bs ← mapO f as
    .ok (b :: bs)

/-! ### Fuzzy match (FolderHolder::should_select_helper) -/

/-- Rust char::to_ascii_lowercase. -/
def toAsciiLower (c : Char) : Char :=
  if 65 ≤ c.toNat ∧ c.toNat ≤ 90 then Char.ofNat (c.toNat + 32) else c

/-- Rust char::eq_ignore_ascii_case. -/
def eqIgnoreAsciiCase (a b : Char) : Bool :=
  toAsciiLower a == toAsciiLower b

/-- The loop of should_select_helper: walk the name characters, advancing a
cursor into the filter each time the current filter character matches
case-insensitively; selected iff the cursor reaches the end of the filter. -/
def shouldSelectGo : List Char → List Char → Bool
  | _, [] => true
  | [], _ :: _ => false
  | n :: ns, i :: is =>
    if eqIgnoreAsciiCase n i then shouldSelectGo ns is else shouldSelectGo ns (i :: is)

/-- FolderHolder::should_select_helper (folder_holder.rs:193-213). -/
def should_select_helper (name input : String) : Bool :=
  if input.isEmpty then true
  else shouldSelectGo name.data input.data

/-! ### Highlight-index wrap (MessageHolder::get_highlight_index_helper) -/

def I32_MAX : Int := 2 ^ 31 - 1
def I32_MIN : Int := -(2 ^ 31)
def USIZE_MAX : Nat := 2 ^ 64 - 1

/-- usize::saturating_add 1, as used on expand_level. -/
def usizeSatSucc (n : Nat) : Nat := min (n + 1) USIZE_MAX

/-- MessageHolder::get_highlight_index_helper (mod.rs:250-259): convert the
usize length to i32 (Parse error if it does not fit), then rem_euclid.
rem_euclid panics when the divisor is zero, which the Rust code does not
guard here. -/
def get_highlight_index_helper (raw_highlight_index : Int) (group_len : Nat) : Outcome Nat :=
  if I32_MAX < (group_len : Int) then
    .err (.Parse "Cannot convert group len of path_group")
  else if group_len = 0 then
    .panic
  else
    .ok (raw_highlight_index % (group_len : Int)).toNat

/-! ### Navigation state machine (src/state_holder/state_holder.rs) -/

inductive InputMode where
  | Normal
  | Edit
  deriving DecidableEq, Repr, Inhabited

inductive ViewMode where
  | Search
  | FileView
  | HistoryFolderView
  deriving DecidableEq, Repr, Inhabited

structure StateHolder where
  input_mode : InputMode := .Normal
  view_mode : ViewMode := .Search
  prev_input_mode : InputMode := .Normal
  prev_view_mode : ViewMode := .Search
  deriving DecidableEq, Repr, Inhabited

def StateHolder.save_previous_state (s : StateHolder) : StateHolder :=
  { s with prev_input_mode := s.input_mode, prev_view_mode := s.view_mode }

def StateHolder.to_search (s : StateHolder) : StateHolder :=
  { s.save_previous_state with input_mode := .Normal, view_mode := .Search }

def StateHolder.to_search_edit (s : StateHolder) : StateHolder :=
  { s.save_previous_state with input_mode := .Edit, view_mode := .Search }

def StateHolder.to_history_search (s : StateHolder) : StateHolder :=
  { s.save_previous_state with input_mode := .Edit, view_mode := .HistoryFolderView }

def StateHolder.to_file_view (s : StateHolder) : StateHolder :=
  { s.save_previous_state with input_mode := .Normal, view_mode := .FileView }

def StateHolder.restore_previous_state (s : StateHolder) : StateHolder :=
  { s with input_mode := s.prev_input_mode, view_mode := s.prev_view_mode }

def StateHolder.is_edit (s : StateHolder) : Bool :=
  s.input_mode == .Edit

def StateHolder.is_history_search (s : StateHolder) : Bool :=
  s.view_mode == .HistoryFolderView

/-! ### Filesystem model

Absolute paths are lists of components; [] is the root. The filesystem is a
finite association list from directory path to its (unsorted, read_dir order)
listing, plus file contents. No symlinks; canonicalization resolves ".."
components and then requires the result to exist. -/

abbrev FsPath := List String

def alookup {α β : Type} [DecidableEq α] : List (α × β) → α → Option β
  | [], _ => none
  | (k, v) :: rest, k' => if k = k' then some v else alookup rest k'

def eraseKey {α β : Type} [DecidableEq α] : List (α × β) → α → List (α × β)
  | [], _ => []
  | (k, v) :: rest, k' => if k = k' then eraseKey rest k' else (k, v) :: eraseKey rest k'

structure FsEntry where
  name : String
  is_dir_entry : Bool
  deriving DecidableEq, Repr, Inhabited

structure FileSystem where
  dirs : List (FsPath × List FsEntry)
  files : List (FsPath × String)
  deriving DecidableEq, Repr, Inhabited

def FileSystem.readDir (fs : FileSystem) (p : FsPath) : Option (List FsEntry) :=
  alookup fs.dirs p

def FileSystem.isDir (fs : FileSystem) (p : FsPath) : Bool :=
  (fs.readDir p).isSome

def FileSystem.isFile (fs : FileSystem) (p : FsPath) : Bool :=
  match p.getLast?, fs.readDir p.dropLast with
  | some n, some listing => listing.any (fun e => e.name == n && !e.is_dir_entry)
  | _, _ => false

def FileSystem.pathExists (fs : FileSystem) (p : FsPath) : Bool :=
  fs.isDir p || fs.isFile p

def FileSystem.readFile (fs : FileSystem) (p : FsPath) : Option String :=
  alookup fs.files p

/-- Resolve ".." components (the only non-canonical component the engine ever
produces, via the synthetic parent shortcut). -/
def normalizePath (p : FsPath) : FsPath :=
  p.foldl (fun acc c => if c = ".." then acc.dropLast else acc ++ [c]) []

/-- std::fs canonicalize on this model: resolve "..", then require existence. -/
def canonicalizeFsPath (fs : FileSystem) (p : FsPath) : Option FsPath :=
  let n := normalizePath p
  if fs.pathExists n then some n else none

/-! ### Entry model (src/message_holder/file_helper.rs) -/

structure FileHolder where
  parent : FsPath
  file_name : String
  is_file : Bool
  deriving DecidableEq, Repr, Inhabited

/-- FileHolder::to_path: parent joined with the file name. -/
def FileHolder.to_path (h : FileHolder) : FsPath :=
  h.parent ++ [h.file_name]

/-- FileHolder::to_path_canonicalize (file_helper.rs:158-163). -/
def FileHolder.to_path_canonicalize (fs : FileSystem) (h : FileHolder) : Outcome FsPath :=
  match canonicalizeFsPath fs h.to_path with
  | some n => .ok n
  | none => .err (.Path "Unable to canonicalize")

/-- TryFrom PathBuf for FileHolder (file_helper.rs:113-149): file name and
parent of the path (Path error at the root), is_file queried from the
filesystem. -/
def FileHolder.try_from (fs : FileSystem) (p : FsPath) : Outcome FileHolder :=
  match p.getLast? with
  | none => .err (.Path "Unable to get file name")
  | some n => .ok { parent := p.dropLast, file_name := n, is_file := fs.isFile p }

def stripPrefixList : FsPath → FsPath → Option FsPath
  | p, [] => some p
  | [], _ :: _ => none
  | a :: as, b :: bs => if b = a then stripPrefixList as bs else none

/-- FileHolder::relative_to (file_helper.rs:180-194): strip the reference
directory off the parent (Path error when it is not a prefix), then render
"rel/name" or the bare name. -/
def FileHolder.relative_to (h : FileHolder) (ref : FsPath) : Outcome String :=
  match stripPrefixList h.parent ref with
  | none => .err (.Path "Can not get path prefix")
  | some rel =>
    if rel = [] then .ok h.file_name
    else .ok (String.intercalate "/" rel ++ "/" ++ h.file_name)

/-- Rendering of an absolute path as the OS string, used on the cache keys in
history mode. -/
def renderPath (p : FsPath) : String :=
  "/" ++ String.intercalate "/" p

/-- Byte-lexicographic order on Rust strings (UTF-8 preserves code point
order, so it is code-point-lexicographic). -/
def charListLt : List Char → List Char → Bool
  | _, [] => false
  | [], _ :: _ => true
  | a :: as, b :: bs =>
    if a.toNat < b.toNat then true
    else if b.toNat < a.toNat then false
    else charListLt as bs

def strLtName (a b : String) : Bool :=
  charListLt a.data b.data

/-- Stable insertion step for sort_by_key on file_name: a new element goes
after all existing elements whose key is not strictly greater. -/
def insertByName (x : FileHolder) : List FileHolder → List FileHolder
  | [] => [x]
  | y :: ys =>
    if strLtName x.file_name y.file_name then x :: y :: ys
    else y :: insertByName x ys

/-- Vec::sort_by_key(|f| f.file_name.clone()): stable sort by name. -/
def sortByName (l : List FileHolder) : List FileHolder :=
  l.foldl (fun acc x => insertByName x acc) []

structure FileGroupHolder where
  child : List FileHolder
  update_time : Nat
  deriving DecidableEq, Repr, Inhabited

/-- FileGroupHolder::new (file_helper.rs:210-237): push the synthetic ".."
entry when requested and the path has a parent, read the directory (Parse
error if unreadable), convert each child through FileHolder::try_from, and
sort the whole vector (shortcut included) by file name. -/
def FileGroupHolder.new (fs : FileSystem) (now : Nat) (path : FsPath)
    (adding_parent_shortcut : Bool) : Outcome FileGroupHolder :=
  let base : List FileHolder :=
    if adding_parent_shortcut ∧ path ≠ [] then
      [{ parent := path, file_name := "..", is_file := false }]
    else []
  match fs.readDir path with
  | none => .err (.Parse "Unable to read")
  | some listing => do
    let children ← mapO (fun e => FileHolder.try_from fs (path ++ [e.name])) listing
    .ok { child := sortByName (base ++ children), update_time := now }

/-! ### LRU cache model (lru crate, as used through folder_holder.rs)

Entries are kept most-recently-used first; iteration visits them in that
order. get moves a hit to the front; put inserts or replaces at the front,
returns the previous value for the key, and evicts the least-recently-used
entry when the capacity is exceeded; pop removes a key. -/

structure LruCache where
  entries : List (FsPath × FileGroupHolder)
  cap : Nat
  deriving DecidableEq, Repr, Inhabited

def LruCache.lookup (c : LruCache) (k : FsPath) : Option FileGroupHolder :=
  alookup c.entries k

def LruCache.get (c : LruCache) (k : FsPath) : Option FileGroupHolder × LruCache :=
  match c.lookup k with
  | none => (none, c)
  | some v => (some v, { c with entries := (k, v) :: eraseKey c.entries k })

def LruCache.put (c : LruCache) (k : FsPath) (v : FileGroupHolder) :
    Option FileGroupHolder × LruCache :=
  let old := c.lookup k
  let inserted := (k, v) :: eraseKey c.entries k
  let final := if c.cap < inserted.length then inserted.dropLast else inserted
  (old, { c with entries := final })

def LruCache.pop (c : LruCache) (k : FsPath) : Option FileGroupHolder × LruCache :=
  match c.lookup k with
  | none => (none, c)
  | some v => (some v, { c with entries := eraseKey c.entries k })

def LruCache.peek (c : LruCache) (k : FsPath) : Option FileGroupHolder :=
  c.lookup k

/-! ### Directory cache and navigation engine (folder_holder.rs)

The Rc-RefCell-shared StateHolder is passed explicitly to the operations that
consult it; none of them mutates it. -/

structure FolderHolder where
  cache_holder : LruCache
  input : String
  selected_path_holder : List FileHolder
  current_directory : FsPath
  current_holder : List FileHolder
  expand_level : Nat
  deriving DecidableEq, Repr, Inhabited

def FolderHolder.should_select (f : FolderHolder) (name : String) : Bool :=
  should_select_helper name f.input

/-- The history-mode arm of FolderHolder::update: iterate the cache in
most-recently-used order without touching recency, filter the rendered keys,
and rebuild a FileHolder for each survivor. -/
def selectHistory (fs : FileSystem) (input : String) :
    List (FsPath × FileGroupHolder) → Outcome (List FileHolder)
  | [] => .ok []
  | (path, _) :: rest =>
    if should_select_helper (renderPath path) input then do
      let fh ← FileHolder.try_from fs path
      let tail ← selectHistory fs input rest
      .ok (fh :: tail)
    else selectHistory fs input rest

/-- The browse-mode arm of FolderHolder::update: filter current_holder on the
rendering of each entry relative to the current directory. -/
def selectBrowse (input : String) (cur : FsPath) :
    List FileHolder → Outcome (List FileHolder)
  | [] => .ok []
  | h :: rest => do
    let s ← h.relative_to cur
    let tail ← selectBrowse input cur rest
    if should_select_helper s input then .ok (h :: tail) else .ok tail

/-- The selection recomputation of FolderHolder::update, as a function of the
cache, the current directory and children, and the filter; it does not read
selected_path_holder. -/
def computeSelected (fs : FileSystem) (st : StateHolder) (input : String)
    (cache : LruCache) (cur : FsPath) (holder : List FileHolder) :
    Outcome (List FileHolder) :=
  if st.is_history_search then selectHistory fs input cache.entries
  else selectBrowse input cur holder

/-- FolderHolder::update (folder_holder.rs:124-149). -/
def FolderHolder.update (fs : FileSystem) (st : StateHolder) (input : Option String)
    (f : FolderHolder) : Outcome FolderHolder :=
  let f := match input with
    | some v => { f with input := v }
    | none => f
  match computeSelected fs st f.input f.cache_holder f.current_directory f.current_holder with
  | .ok sel => .ok { f with selected_path_holder := sel }
  | .err e => .err e
  | .panic => .panic

/-- FolderHolder::put (folder_holder.rs:117-122). -/
def FolderHolder.put (fs : FileSystem) (now : Nat) (path : FsPath)
    (f : FolderHolder) : Outcome FolderHolder := do
  let holder ← FileGroupHolder.new fs now path true
  .ok { f with cache_holder := (f.cache_holder.put path holder).2 }

/-- FolderHolder::submit_new_working_directory (folder_holder.rs:151-172):
load-or-get the path into the cache (marking it most-recently-used), make it
current, adopt the cached children, clear the filter, recompute the
selection, and reset expand_level. -/
def FolderHolder.submit_new_working_directory (fs : FileSystem) (now : Nat)
    (st : StateHolder) (path : FsPath) (f : FolderHolder) : Outcome FolderHolder := do
  let f ← match f.cache_holder.get path with
    | (some _, c1) => .ok { f with cache_holder := c1 }
    | (none, c1) => FolderHolder.put fs now path { f with cache_holder := c1 }
  let f := { f with current_directory := path }
  match f.cache_holder.get f.current_directory with
  | (none, _) => .err (.Cache "Unable to get folder cache")
  | (some cache_result, c2) => do
    let f ← FolderHolder.update fs st none
      { f with cache_holder := c2, current_holder := cache_result.child, input := "" }
    .ok { f with expand_level := 0 }

/-- FolderHolder::refresh (folder_holder.rs:174-187): force-reload the
current directory, rebuild children and selection, then replace the cache
entry (a Cache error if the key was not already present). -/
def FolderHolder.refresh (fs : FileSystem) (now : Nat) (st : StateHolder)
    (f : FolderHolder) : Outcome FolderHolder := do
  let holder ← FileGroupHolder.new fs now f.current_directory true
  let f ← FolderHolder.update fs st none { f with current_holder := holder.child }
  match f.cache_holder.put f.current_directory holder with
  | (none, _) => .err (.Cache "Unable to insert folder cache")
  | (some _, c) => .ok { f with cache_holder := c }

/-- FolderHolder::submit (folder_holder.rs:215-217): canonicalize the
highlighted entry; Vec indexing panics when the index is out of bounds. -/
def FolderHolder.submit (fs : FileSystem) (index : Nat) (f : FolderHolder) :
    Outcome FsPath :=
  match f.selected_path_holder.get? index with
  | none => .panic
  | some h => h.to_path_canonicalize fs

/-- FolderHolder::drop_invalid_folder (folder_holder.rs:219-230): State error
outside history mode; otherwise remove the stale entry from the selection
(Vec::remove panics out of bounds) and pop its full path from the cache
(Cache error when absent). -/
def FolderHolder.drop_invalid_folder (st : StateHolder) (index : Nat)
    (f : FolderHolder) : Outcome FolderHolder :=
  if !st.is_history_search then .err (.State "Must be in history mode")
  else
    match f.selected_path_holder.get? index with
    | none => .panic
    | some removed =>
      match f.cache_holder.pop removed.to_path with
      | (none, _) => .err (.Cache "Must contain the invalid path in cache")
      | (some _, c) =>
        .ok { f with
                selected_path_holder := f.selected_path_holder.eraseIdx index,
                cache_holder := c }

def concatAll {α : Type} : List (List α) → List α
  | [] => []
  | l :: ls => l ++ concatAll ls

/-- The body of the expand loop for one canonicalized path: a directory is
replaced by its own freshly loaded children (no parent shortcut, not
cached); anything else is rebuilt as a single FileHolder. -/
def expandPath (fs : FileSystem) (now : Nat) (p : FsPath) : Outcome (List FileHolder) :=
  if fs.isDir p then do
    let group ← FileGroupHolder.new fs now p false
    .ok group.child
  else do
    let fh ← FileHolder.try_from fs p
    .ok [fh]

/-- FolderHolder::expand (folder_holder.rs:49-75): keep element 0, flatten
every other (canonicalizable) entry one level, recompute the selection, and
saturating-increment expand_level. Indexing current_holder[0] panics when
the list is empty. -/
def FolderHolder.expand (fs : FileSystem) (now : Nat) (st : StateHolder)
    (f : FolderHolder) : Outcome FolderHolder :=
  match f.current_holder.head? with
  | none => .panic
  | some first_item => do
    let value_path_group := (f.current_holder.drop 1).filterMap
      (fun h => (h.to_path_canonicalize fs).toOption)
    let results ← mapO (expandPath fs now) value_path_group
    let f ← FolderHolder.update fs st none
      { f with current_holder := first_item :: concatAll results }
    .ok { f with expand_level := usizeSatSucc f.expand_level }

/-- The re-aggregation key of one entry in the collapse loop: the depth is
the number of '/' separators in the rendering relative to the current
directory; entries deeper than the new level contribute their canonicalized
parent (Parse error on failure), the others their own canonical path. -/
def collapseKey (fs : FileSystem) (cur : FsPath) (lvl : Nat) (item : FileHolder) :
    Outcome FsPath := do
  let result ← item.relative_to cur
  if lvl < (result.data.filter (fun c => c = '/')).length then
    match canonicalizeFsPath fs item.parent with
    | none => .err (.Parse "Unable to get parent")
    | some k => .ok k
  else
    item.to_path_canonicalize fs

/-- The collapse loop with its seen-set of canonical keys: the first
occurrence of each key is rebuilt through FileHolder::try_from, later
occurrences are dropped. -/
def collapseLoop (fs : FileSystem) (cur : FsPath) (lvl : Nat) :
    List FileHolder → List FsPath → Outcome (List FileHolder)
  | [], _ => .ok []
  | item :: rest, seen => do
    let key ← collapseKey fs cur lvl item
    if key ∈ seen then collapseLoop fs cur lvl rest seen
    else do
      let fh ← FileHolder.try_from fs key
      let tail ← collapseLoop fs cur lvl rest (key :: seen)
      .ok (fh :: tail)

/-- FolderHolder::collapse (folder_holder.rs:77-115): no-op at level 0;
otherwise decrement the level, re-aggregate the flattened list with
deduplication by canonical path, and recompute the selection. -/
def FolderHolder.collapse (fs : FileSystem) (st : StateHolder)
    (f : FolderHolder) : Outcome FolderHolder :=
  if f.expand_level = 0 then .ok f
  else
    let lvl := f.expand_level - 1
    match f.current_holder.head? with
    | none => .panic
    | some first_item => do
      let tail ← collapseLoop fs f.current_directory lvl (f.current_holder.drop 1) []
      FolderHolder.update fs st none
        { f with expand_level := lvl, current_holder := first_item :: tail }

/-! ### File viewing model (file_helper.rs, FileTextInfo) -/

def MAX_FILE_SIZE : Nat := 10 * 1024 * 1024

def get_string_dimensions (text : String) : Nat × Nat :=
  let step := fun (acc : Nat × Nat × Nat) (c : Char) =>
    let (rows, maxLen, cur) := acc
    if c = '\n' then (rows + 1, max maxLen cur, 0) else (rows, maxLen, cur + 1)
  let r := text.data.foldl step (0, 0, 0)
  if text.isEmpty then (r.1, r.2.1) else (r.1 + 1, max r.2.1 r.2.2)

structure FileTextInfo where
  n_rows : Nat
  max_line_length : Nat
  formatted_text : List String
  deriving DecidableEq, Repr, Inhabited

/-- FileTextInfo::new (file_helper.rs:70-87). Byte-level counting and the
external syntax highlighter are modelled at character / line granularity
(exact for ASCII content); the size check uses the UTF-8 byte size of the
stored content. -/
def FileTextInfo.new (fs : FileSystem) (p : FsPath) : Outcome FileTextInfo :=
  if !fs.pathExists p then .err (.Io "metadata")
  else
    let size := match fs.readFile p with
      | some s => s.utf8ByteSize
      | none => 0
    if MAX_FILE_SIZE < size then .err (.Path "File too large")
    else
      let content := match fs.readFile p with
        | some text => text
        | none => "Unable to read..."
      let dims := get_string_dimensions content
      .ok { n_rows := dims.1, max_line_length := dims.2,
            formatted_text := content.splitOn "\n" }

/-! ### Filesystem mutation (std::fs::remove_file / remove_dir_all) -/

def pathHasPrefix (pre p : FsPath) : Bool :=
  match pre, p with
  | [], _ => true
  | _ :: _, [] => false
  | a :: as, b :: bs => a == b && pathHasPrefix as bs

def removeChildEntry (parent : FsPath) (name : String) :
    List (FsPath × List FsEntry) → List (FsPath × List FsEntry)
  | [] => []
  | (k, listing) :: rest =>
    if k = parent then (k, listing.filter (fun e => e.name ≠ name)) :: removeChildEntry parent name rest
    else (k, listing) :: removeChildEntry parent name rest

def FileSystem.removeFileAt (fs : FileSystem) (p : FsPath) : FileSystem :=
  match p.getLast? with
  | none => fs
  | some n =>
    { dirs := removeChildEntry p.dropLast n fs.dirs,
      files := eraseKey fs.files p }

def FileSystem.removeDirAll (fs : FileSystem) (p : FsPath) : FileSystem :=
  match p.getLast? with
  | none => fs
  | some n =>
    { dirs := removeChildEntry p.dropLast n
        (fs.dirs.filter (fun kv => !pathHasPrefix p kv.1)),
      files := fs.files.filter (fun kv => !pathHasPrefix p kv.1) }

/-! ### Main controller (src/message_holder/mod.rs, MessageHolder)

The ratatui scrollbar state and the stateless highlighter are presentation
collaborators and are not part of the model. -/

structure MessageHolder where
  state_holder : StateHolder
  folder_holder : FolderHolder
  raw_highlight_index : Int
  file_opened : Option FsPath
  file_text_info : Option FileTextInfo
  vertical_scroll : Nat
  horizontal_scroll : Nat
  deriving DecidableEq, Repr, Inhabited

def MessageHolder.reset_index (m : MessageHolder) : MessageHolder :=
  { m with raw_highlight_index := 0 }

def MessageHolder.get_highlight_index (m : MessageHolder) (group_len : Nat) : Outcome Nat :=
  get_highlight_index_helper m.raw_highlight_index group_len

/-- MessageHolder::update (mod.rs:134-138). -/
def MessageHolder.update (fs : FileSystem) (input : Option String)
    (m : MessageHolder) : Outcome MessageHolder := do
  let f ← m.folder_holder.update fs m.state_holder input
  .ok ({ m with folder_holder := f }).reset_index

/-- MessageHolder::submit (mod.rs:269-302): nothing happens on an empty
selection; otherwise the highlighted entry is canonicalized and either
entered (directory; leaving history mode first), opened (file), or, on a
stale path, recovered from by dropping the history entry or refreshing the
current directory. -/
def MessageHolder.submit (fs : FileSystem) (now : Nat) (m : MessageHolder) :
    Outcome MessageHolder :=
  if m.folder_holder.selected_path_holder.isEmpty then .ok m
  else do
    let highlight_index ← m.get_highlight_index m.folder_holder.selected_path_holder.length
    match m.folder_holder.submit fs highlight_index with
    | .panic => .panic
    | .ok new_entrypoint =>
      if fs.isDir new_entrypoint then do
        let st := if m.state_holder.is_history_search then m.state_holder.to_search
          else m.state_holder
        let f ← FolderHolder.submit_new_working_directory fs now st new_entrypoint
          m.folder_holder
        .ok { m with state_holder := st, folder_holder := f }
      else do
        let info ← FileTextInfo.new fs new_entrypoint
        .ok { m with
                file_text_info := some info,
                file_opened := some new_entrypoint,
                state_holder := m.state_holder.to_file_view }
    | .err _ =>
      if m.state_holder.is_history_search then do
        let f ← m.folder_holder.drop_invalid_folder m.state_holder highlight_index
        .ok { m with folder_holder := f }
      else do
        let f ← m.folder_holder.refresh fs now m.state_holder
        .ok { m with folder_holder := f }

/-- MessageHolder::delete (mod.rs:183-199): nothing happens on an empty
selection; otherwise the resolved path is removed from disk (errors
swallowed; a stale path skips the removal and the refresh and returns Ok)
and the current directory is refreshed. Returns the new controller state and
filesystem. -/
def MessageHolder.delete (fs : FileSystem) (now : Nat) (m : MessageHolder) :
    Outcome (MessageHolder × FileSystem) :=
  if m.folder_holder.selected_path_holder.isEmpty then .ok (m, fs)
  else do
    let highlight_index ← m.get_highlight_index m.folder_holder.selected_path_holder.length
    match m.folder_holder.submit fs highlight_index with
    | .panic => .panic
    | .err _ => .ok (m, fs)
    | .ok path => do
      let fs2 := if fs.isDir path then fs.removeDirAll path else fs.removeFileAt path
      let f ← m.folder_holder.refresh fs2 now m.state_holder
      .ok ({ m with folder_holder := f }, fs2)

/-! ### Specification-side helper notions -/

/-- An entry whose stored data agrees with the filesystem: its full path is
already canonical, and its is_file flag matches what the path is on disk.
Entries produced by reading an unchanged directory satisfy this. -/
def entryConsistent (fs : FileSystem) (h : FileHolder) : Prop :=
  normalizePath h.to_path = h.to_path
  ∧ (if h.is_file then fs.isFile h.to_path = true ∧ fs.isDir h.to_path = false
     else fs.isDir h.to_path = true)

instance (fs : FileSystem) (h : FileHolder) : Decidable (entryConsistent fs h) := by
  unfold entryConsistent
  infer_instance

/-- Keep the first occurrence of every element not already in the seen set:
the deduplication performed by the collapse loop, lifted out of the monad. -/
def dedupSeen {α : Type} [DecidableEq α] : List α → List α → List α
  | [], _ => []
  | a :: as, seen =>
    if a ∈ seen then dedupSeen as seen else a :: dedupSeen as (a :: seen)

/-! ### Concrete fixtures used by the witnesses -/

def fsDemo : FileSystem :=
  { dirs := [([], [⟨"a", true⟩, ⟨"d", true⟩, ⟨"f.txt", false⟩]),
             (["a"], []),
             (["d"], [⟨"x.txt", false⟩, ⟨"y.txt", false⟩])],
    files := [(["f.txt"], "hello"), (["d", "x.txt"], "x"), (["d", "y.txt"], "y")] }

def stBrowse : StateHolder := {}

def stHist : StateHolder :=
  { input_mode := .Edit, view_mode := .HistoryFolderView,
    prev_input_mode := .Normal, prev_view_mode := .Search }

def g0 : FileGroupHolder := (FileGroupHolder.new fsDemo 0 [] true).getOk

def f0 : FolderHolder :=
  { cache_holder := { entries := [([], g0)], cap := 100 },
    input := "",
    selected_path_holder := g0.child,
    current_directory := [],
    current_holder := g0.child,
    expand_level := 0 }

def fA1 : FolderHolder :=
  (FolderHolder.submit_new_working_directory fsDemo 1 stBrowse ["a"] f0).getOk

def fB2 : FolderHolder :=
  (FolderHolder.submit_new_working_directory fsDemo 2 stBrowse [] fA1).getOk

def fA3 : FolderHolder :=
  (FolderHolder.submit_new_working_directory fsDemo 3 stBrowse ["a"] fB2).getOk

def vA2 : FileGroupHolder := (fB2.cache_holder.lookup ["a"]).getD default

/-- A stale entry: its backing path does not exist in fsDemo. -/
def fhGone : FileHolder := { parent := [], file_name := "gone", is_file := false }

def gDummy : FileGroupHolder := { child := [], update_time := 0 }

def gA : FileGroupHolder := (FileGroupHolder.new fsDemo 0 ["a"] true).getOk

/-- History-mode state whose selection holds a stale entry whose key is
cached. FileHolder::try_from fails on the filesystem root, so the root is
never used as a history key here, matching an app started below the root. -/
def fHist : FolderHolder :=
  { cache_holder := { entries := [(["gone"], gDummy), (["a"], gA)], cap := 100 },
    input := "",
    selected_path_holder := [fhGone],
    current_directory := [],
    current_holder := g0.child,
    expand_level := 0 }

def mHist : MessageHolder :=
  { state_holder := stHist, folder_holder := fHist, raw_highlight_index := 0,
    file_opened := none, file_text_info := none,
    vertical_scroll := 0, horizontal_scroll := 0 }

/-- Browse-mode state whose selection holds a stale entry. -/
def fBrowseStale : FolderHolder :=
  { cache_holder := { entries := [([], g0)], cap := 100 },
    input := "",
    selected_path_holder := [fhGone],
    current_directory := [],
    current_holder := g0.child,
    expand_level := 0 }

def mBrowseStale : MessageHolder :=
  { state_holder := stBrowse, folder_holder := fBrowseStale, raw_highlight_index := 0,
    file_opened := none, file_text_info := none,
    vertical_scroll := 0, horizontal_scroll := 0 }

def mHistAfter : MessageHolder := (MessageHolder.submit fsDemo 9 mHist).getOk

def fBrowseRefreshed : FolderHolder :=
  (FolderHolder.refresh fsDemo 9 stBrowse fBrowseStale).getOk

def fHistUpd : FolderHolder := (FolderHolder.update fsDemo stHist none fHist).getOk

def fHistSomeUpd : FolderHolder :=
  (FolderHolder.update fsDemo stHist (some "a") fHist).getOk

/-- Browse-mode state for the expand / collapse witnesses. -/
def aEntry : FileHolder := { parent := [], file_name := "a", is_file := false }
def dEntry : FileHolder := { parent := [], file_name := "d", is_file := false }
def fEntry : FileHolder := { parent := [], file_name := "f.txt", is_file := true }
def xEntry : FileHolder := { parent := ["d"], file_name := "x.txt", is_file := true }
def yEntry : FileHolder := { parent := ["d"], file_name := "y.txt", is_file := true }

def fExp : FolderHolder :=
  { cache_holder := { entries := [([], g0)], cap := 100 },
    input := "",
    selected_path_holder := [aEntry, dEntry, fEntry],
    current_directory := [],
    current_holder := [aEntry, dEntry, fEntry],
    expand_level := 0 }

def fExpOut : FolderHolder := (FolderHolder.expand fsDemo 4 stBrowse fExp).getOk

def fColl : FolderHolder :=
  { cache_holder := { entries := [([], g0)], cap := 100 },
    input := "",
    selected_path_holder := [aEntry, xEntry, yEntry, fEntry],
    current_directory := [],
    current_holder := [aEntry, xEntry, yEntry, fEntry],
    expand_level := 1 }

def fCollOut : FolderHolder := (FolderHolder.collapse fsDemo stBrowse fColl).getOk

def mEmpty : MessageHolder :=
  { state_holder := stBrowse,
    folder_holder :=
      { cache_holder := { entries := [([], g0)], cap := 100 },
        input := "",
        selected_path_holder := [],
        current_directory := [],
        current_holder := g0.child,
        expand_level := 0 },
    raw_highlight_index := 0,
    file_opened := none, file_text_info := none,
    vertical_scroll := 0, horizontal_scroll := 0 }

/-- Directory whose listing contains a name that sorts before "..". -/
def fsBang : FileSystem :=
  { dirs := [(["d"], [⟨"!a", false⟩])], files := [] }

end Athena

namespace Athena

/-! ### Theorems -/

theorem outcome_bind_eq_ok {α β : Type} {x : Outcome α} {f : α → Outcome β} {b : β} :
    x.bind f = .ok b ↔ ∃ a, x = .ok a ∧ f a = .ok b := by
  cases x <;> simp [Outcome.bind]

theorem outcome_seq_eq_ok {α β : Type} {x : Outcome α} {f : α → Outcome β} {b : β} :
    (x >>= f) = .ok b ↔ ∃ a, x = .ok a ∧ f a = .ok b :=
  outcome_bind_eq_ok

/-- Characterization of the greedy subsequence walk: it succeeds exactly when
the lowered filter characters form a sublist (subsequence) of the lowered
name characters. -/
theorem shouldSelectGo_eq_sublist (ns is : List Char) :
    shouldSelectGo ns is = true ↔
      (is.map toAsciiLower).Sublist (ns.map toAsciiLower) := by
  induction ns generalizing is with
  | nil =>
    cases is with
    | nil => simp [shouldSelectGo]
    | cons i is' => simp [shouldSelectGo]
  | cons n ns' ih =>
    cases is with
    | nil => simp [shouldSelectGo]
    | cons i is' =>
      by_cases h : eqIgnoreAsciiCase n i = true
      · have heq : toAsciiLower n = toAsciiLower i := by
          simpa [eqIgnoreAsciiCase] using h
        rw [shouldSelectGo, if_pos h, ih]
        constructor
        · intro hsub
          simpa [List.map, heq] using List.Sublist.cons₂ (toAsciiLower n) hsub
        · intro hsub
          simp only [List.map] at hsub
          rcases List.sublist_cons_iff.mp hsub with h1 | ⟨r, hr, h2⟩
          · exact List.Sublist.trans (List.sublist_cons_self _ _) h1
          · injection hr with hr1 hr2
            rw [← hr2] at h2
            exact h2
      · have hne : toAsciiLower n ≠ toAsciiLower i := by
          intro hcontra
          exact h (by simp [eqIgnoreAsciiCase, hcontra])
        rw [shouldSelectGo, if_neg h, ih]
        constructor
        · intro hsub
          exact List.Sublist.trans hsub (List.sublist_cons_self _ _)
        · intro hsub
          simp only [List.map] at hsub ⊢
          rcases List.sublist_cons_iff.mp hsub with h1 | ⟨r, hr, h2⟩
          · exact h1
          · injection hr with hr1 hr2
            exact absurd hr1.symm hne

/-- C1: should_select_helper returns true on an empty filter, and in general
returns true exactly when the filter characters occur, in order but not
necessarily contiguously, as a case-insensitive subsequence of the name; the
five concrete examples of the spec hold. It is a pure function of its two
string arguments. -/
theorem should_select_helper_subsequence :
    (∀ name : String, should_select_helper name "" = true)
    ∧ (∀ name input : String,
        should_select_helper name input = true ↔
          (input.data.map toAsciiLower).Sublist (name.data.map toAsciiLower))
    ∧ should_select_helper "abc" "c" = true
    ∧ should_select_helper "abc" "" = true
    ∧ should_select_helper "abc" "d" = false
    ∧ should_select_helper "abc" "abcd" = false
    ∧ should_select_helper "ABC" "bc" = true := by
  refine ⟨fun name => rfl, fun name input => ?_, by decide, by decide, by decide, by decide,
    by decide⟩
  by_cases h : input.isEmpty
  · have hinput : input = "" := (String.isEmpty_iff input).mp h
    subst hinput
    exact ⟨fun _ => List.nil_sublist _, fun _ => rfl⟩
  · unfold should_select_helper
    rw [if_neg h]
    exact shouldSelectGo_eq_sublist _ _

/-- C7: for every i32 raw index and non-zero length that fits in i32, the
wrap helper returns Ok of the Euclidean modulo (the unique r with
0 ≤ r < len and len dividing raw - r); the three concrete examples of the
spec hold. -/
theorem get_highlight_index_helper_spec (raw : Int) (len : Nat)
    (hlo : I32_MIN ≤ raw) (hhi : raw ≤ I32_MAX)
    (hlen : 0 < len) (hlen_hi : (len : Int) ≤ I32_MAX) :
    (∃ r : Nat, get_highlight_index_helper raw len = .ok r ∧ r < len ∧
      (raw - (r : Int)) % (len : Int) = 0)
    ∧ get_highlight_index_helper 1 10 = .ok 1
    ∧ get_highlight_index_helper (-1) 10 = .ok 9
    ∧ get_highlight_index_helper 5 3 = .ok 2 := by
  refine ⟨?_, by decide, by decide, by decide⟩
  have hlen' : (0 : Int) < (len : Int) := by exact_mod_cast hlen
  have hne : (len : Int) ≠ 0 := ne_of_gt hlen'
  have hnonneg : 0 ≤ raw % (len : Int) := Int.emod_nonneg raw hne
  have hlt : raw % (len : Int) < (len : Int) := Int.emod_lt_of_pos raw hlen'
  refine ⟨(raw % (len : Int)).toNat, ?_, ?_, ?_⟩
  · unfold get_highlight_index_helper
    rw [if_neg (by omega), if_neg (by omega)]
  · have := Int.toNat_of_nonneg hnonneg
    omega
  · have hcast : ((raw % (len : Int)).toNat : Int) = raw % (len : Int) :=
      Int.toNat_of_nonneg hnonneg
    rw [hcast, Int.sub_emod, Int.emod_emod_of_dvd raw dvd_rfl, sub_self, Int.zero_emod]

/-- C7 witness: the general statement applied at raw = -1, len = 10, where
the Euclidean result is 9. -/
theorem get_highlight_index_helper_spec_witness :
    get_highlight_index_helper (-1) 10 = .ok 9 ∧ 9 < 10 ∧
      ((-1) - (9 : Int)) % (10 : Int) = 0 := by
  obtain ⟨r, hr, hlt, hdvd⟩ := (get_highlight_index_helper_spec (-1) 10 (by decide)
    (by decide) (by decide) (by decide)).1
  have h9 : get_highlight_index_helper (-1) 10 = .ok 9 := by decide
  rw [hr] at h9
  injection h9 with h9
  subst h9
  exact ⟨hr, hlt, hdvd⟩

/-- C9: each of the four transitions saves the pre-transition
(input_mode, view_mode) pair into (prev_input_mode, prev_view_mode) and then
sets its advertised target pair; restore_previous_state installs the saved
pair and leaves the saved pair itself unchanged, so applying it twice equals
applying it once. All are total functions over StateHolder. -/
theorem state_holder_transitions (s : StateHolder) :
    ((s.to_search).prev_input_mode = s.input_mode
      ∧ (s.to_search).prev_view_mode = s.view_mode
      ∧ (s.to_search).input_mode = .Normal ∧ (s.to_search).view_mode = .Search)
    ∧ ((s.to_search_edit).prev_input_mode = s.input_mode
      ∧ (s.to_search_edit).prev_view_mode = s.view_mode
      ∧ (s.to_search_edit).input_mode = .Edit ∧ (s.to_search_edit).view_mode = .Search)
    ∧ ((s.to_history_search).prev_input_mode = s.input_mode
      ∧ (s.to_history_search).prev_view_mode = s.view_mode
      ∧ (s.to_history_search).input_mode = .Edit
      ∧ (s.to_history_search).view_mode = .HistoryFolderView)
    ∧ ((s.to_file_view).prev_input_mode = s.input_mode
      ∧ (s.to_file_view).prev_view_mode = s.view_mode
      ∧ (s.to_file_view).input_mode = .Normal ∧ (s.to_file_view).view_mode = .FileView)
    ∧ ((s.restore_previous_state).input_mode = s.prev_input_mode
      ∧ (s.restore_previous_state).view_mode = s.prev_view_mode
      ∧ (s.restore_previous_state).prev_input_mode = s.prev_input_mode
      ∧ (s.restore_previous_state).prev_view_mode = s.prev_view_mode)
    ∧ s.restore_previous_state.restore_previous_state = s.restore_previous_state :=
  ⟨⟨rfl, rfl, rfl, rfl⟩, ⟨rfl, rfl, rfl, rfl⟩, ⟨rfl, rfl, rfl, rfl⟩,
    ⟨rfl, rfl, rfl, rfl⟩, ⟨rfl, rfl, rfl, rfl⟩, rfl⟩

/-! ### Helper lemmas about the embedded operations -/

@[simp] theorem alookup_cons_self {α β : Type} [DecidableEq α] (k : α) (v : β)
    (l : List (α × β)) : alookup ((k, v) :: l) k = some v := by
  simp [alookup]

@[simp] theorem alookup_eraseKey_self {α β : Type} [DecidableEq α]
    (l : List (α × β)) (k : α) : alookup (eraseKey l k) k = none := by
  induction l with
  | nil => simp [eraseKey, alookup]
  | cons kv rest ih =>
    obtain ⟨k', v⟩ := kv
    by_cases h : k' = k
    · simp [eraseKey, h, ih]
    · simp [eraseKey, alookup, h, ih]

theorem alookup_dropLast_cons_self {α β : Type} [DecidableEq α] (k : α) (v : β)
    (l : List (α × β)) (x : β)
    (h : alookup (((k, v) :: l).dropLast) k = some x) : x = v := by
  cases l with
  | nil => simp [List.dropLast, alookup] at h
  | cons y ys =>
    rw [List.dropLast_cons₂] at h
    rw [alookup_cons_self] at h
    exact (Option.some_inj.mp h).symm

theorem update_none_ok_iff (fs : FileSystem) (st : StateHolder) (f f' : FolderHolder) :
    FolderHolder.update fs st none f = .ok f' ↔
      ∃ sel,
        computeSelected fs st f.input f.cache_holder f.current_directory f.current_holder
          = .ok sel
        ∧ f' = { f with selected_path_holder := sel } := by
  unfold FolderHolder.update
  cases hX : computeSelected fs st f.input f.cache_holder f.current_directory
      f.current_holder with
  | ok sel => simp [hX, eq_comm]
  | err e => simp [hX]
  | panic => simp [hX]

theorem update_some_ok_iff (fs : FileSystem) (st : StateHolder) (s : String)
    (f f' : FolderHolder) :
    FolderHolder.update fs st (some s) f = .ok f' ↔
      ∃ sel,
        computeSelected fs st s f.cache_holder f.current_directory f.current_holder
          = .ok sel
        ∧ f' = { f with input := s, selected_path_holder := sel } := by
  unfold FolderHolder.update
  cases hX : computeSelected fs st s f.cache_holder f.current_directory
      f.current_holder with
  | ok sel => simp [hX, eq_comm]
  | err e => simp [hX]
  | panic => simp [hX]

@[simp] theorem outcome_bind_ok {α β : Type} (a : α) (k : α → Outcome β) :
    (Outcome.ok a >>= k) = k a := rfl

@[simp] theorem outcome_bind_err {α β : Type} (e : AppError) (k : α → Outcome β) :
    (Outcome.err e >>= k) = .err e := rfl

@[simp] theorem outcome_bind_panic {α β : Type} (k : α → Outcome β) :
    ((Outcome.panic : Outcome α) >>= k) = .panic := rfl

@[simp] theorem outcome_pure_eq_ok {α : Type} (a : α) :
    (pure a : Outcome α) = .ok a := rfl

@[simp] theorem outcome_toOption_ok {α : Type} (a : α) :
    (Outcome.ok a).toOption = some a := rfl

theorem lookup_put_self_of_some (c : LruCache) (k : FsPath) (v x : FileGroupHolder)
    (h : (c.put k v).2.lookup k = some x) : x = v := by
  unfold LruCache.put LruCache.lookup at h
  dsimp only at h
  by_cases hc : c.cap < ((k, v) :: eraseKey c.entries k).length
  · rw [if_pos hc] at h
    exact alookup_dropLast_cons_self k v _ x h
  · rw [if_neg hc] at h
    rw [alookup_cons_self] at h
    exact (Option.some_inj.mp h).symm

theorem lookup_put_self (c : LruCache) (k : FsPath) (v : FileGroupHolder)
    (hcap : 0 < c.cap) : (c.put k v).2.lookup k = some v := by
  unfold LruCache.put LruCache.lookup
  dsimp only
  cases he : eraseKey c.entries k with
  | nil =>
    simp only [List.length_cons, List.length_nil]
    rw [if_neg (by omega)]
    exact alookup_cons_self k v []
  | cons y ys =>
    by_cases hc : c.cap < ((k, v) :: y :: ys).length
    · rw [if_pos hc, List.dropLast_cons₂]
      exact alookup_cons_self _ _ _
    · rw [if_neg hc]
      exact alookup_cons_self _ _ _

theorem mapO_forall2 {α β : Type} (f : α → Outcome β) :
    ∀ (l : List α) (out : List β), mapO f l = .ok out →
      List.Forall₂ (fun a b => f a = .ok b) l out := by
  intro l
  induction l with
  | nil =>
    intro out h
    simp only [mapO, Outcome.ok.injEq] at h
    subst h
    exact List.Forall₂.nil
  | cons a as ih =>
    intro out h
    simp only [mapO, bind, outcome_bind_eq_ok] at h
    obtain ⟨b, hb, h⟩ := h
    obtain ⟨bs, hbs, h⟩ := h
    cases h
    exact List.Forall₂.cons hb (ih bs hbs)

/-- C6: update(None) only rewrites the selected list (input, cache with its
recency order, current directory, children and expand level are untouched),
and running it again returns exactly the same state, so the selected list is
the same both times; update(Some s) additionally sets only the filter
string. This holds in browse and history mode alike. -/
theorem update_none_idempotent :
    (∀ (fs : FileSystem) (st : StateHolder) (f f' : FolderHolder),
      FolderHolder.update fs st none f = .ok f' →
      (f'.input = f.input ∧ f'.cache_holder = f.cache_holder
        ∧ f'.current_directory = f.current_directory
        ∧ f'.current_holder = f.current_holder
        ∧ f'.expand_level = f.expand_level)
      ∧ FolderHolder.update fs st none f' = .ok f')
    ∧ (∀ (fs : FileSystem) (st : StateHolder) (s : String) (f f' : FolderHolder),
        FolderHolder.update fs st (some s) f = .ok f' →
        f'.input = s ∧ f'.cache_holder = f.cache_holder
        ∧ f'.current_directory = f.current_directory
        ∧ f'.current_holder = f.current_holder
        ∧ f'.expand_level = f.expand_level) := by
  constructor
  · intro fs st f f' h
    rw [update_none_ok_iff] at h
    obtain ⟨sel, hsel, rfl⟩ := h
    refine ⟨⟨rfl, rfl, rfl, rfl, rfl⟩, ?_⟩
    rw [update_none_ok_iff]
    exact ⟨sel, hsel, rfl⟩
  · intro fs st s f f' h
    rw [update_some_ok_iff] at h
    obtain ⟨sel, hsel, rfl⟩ := h
    exact ⟨rfl, rfl, rfl, rfl, rfl⟩

/-- C6 witness: a history-mode update over a two-entry cache, run through the
theorem; the second run reproduces the state and the cache order. -/
theorem update_none_idempotent_witness :
    FolderHolder.update fsDemo stHist none fHist = .ok fHistUpd
    ∧ FolderHolder.update fsDemo stHist none fHistUpd = .ok fHistUpd
    ∧ fHistUpd.cache_holder = fHist.cache_holder
    ∧ FolderHolder.update fsDemo stHist (some "a") fHist = .ok fHistSomeUpd
    ∧ fHistSomeUpd.input = "a"
    ∧ fHistSomeUpd.cache_holder = fHist.cache_holder := by
  have h : FolderHolder.update fsDemo stHist none fHist = .ok fHistUpd := by decide
  have h2 := update_none_idempotent.1 fsDemo stHist fHist fHistUpd h
  have hs : FolderHolder.update fsDemo stHist (some "a") fHist = .ok fHistSomeUpd := by
    decide
  have h3 := update_none_idempotent.2 fsDemo stHist "a" fHist fHistSomeUpd hs
  exact ⟨h, h2.2, h2.1.2.1, hs, h3.1, h3.2.1⟩

/-- C2: a successful submit_new_working_directory(p) leaves p cached and
most-recently-used (reusing the cached snapshot when one existed, reading
the directory only otherwise), sets current_directory to p and
current_holder to the cached snapshot's entries, clears the filter, resets
expand_level to 0, and leaves selected exactly as a fresh recomputation
would; consequently enter(A); enter(B); enter(A) adopts A's still-cached
snapshot unchanged rather than re-reading it. -/
theorem submit_new_working_directory_spec :
    (∀ (fs : FileSystem) (now : Nat) (st : StateHolder) (path : FsPath)
        (f f' : FolderHolder),
      FolderHolder.submit_new_working_directory fs now st path f = .ok f' →
      f'.current_directory = path
      ∧ f'.input = ""
      ∧ f'.expand_level = 0
      ∧ ∃ snap,
          f'.cache_holder.entries.head? = some (path, snap)
          ∧ f'.cache_holder.lookup path = some snap
          ∧ f'.current_holder = snap.child
          ∧ (∀ old, f.cache_holder.lookup path = some old → snap = old)
          ∧ (f.cache_holder.lookup path = none →
              FileGroupHolder.new fs now path true = .ok snap)
          ∧ FolderHolder.update fs st none f' = .ok f')
    ∧ (∀ (fs : FileSystem) (now₁ now₂ now₃ : Nat) (st : StateHolder) (A B : FsPath)
        (f f1 f2 f3 : FolderHolder) (vA : FileGroupHolder),
        FolderHolder.submit_new_working_directory fs now₁ st A f = .ok f1 →
        FolderHolder.submit_new_working_directory fs now₂ st B f1 = .ok f2 →
        FolderHolder.submit_new_working_directory fs now₃ st A f2 = .ok f3 →
        f2.cache_holder.lookup A = some vA →
        f3.cache_holder.lookup A = some vA ∧ f3.current_holder = vA.child) := by
  have main : ∀ (fs : FileSystem) (now : Nat) (st : StateHolder) (path : FsPath)
      (f f' : FolderHolder),
      FolderHolder.submit_new_working_directory fs now st path f = .ok f' →
      f'.current_directory = path
      ∧ f'.input = ""
      ∧ f'.expand_level = 0
      ∧ ∃ snap,
          f'.cache_holder.entries.head? = some (path, snap)
          ∧ f'.cache_holder.lookup path = some snap
          ∧ f'.current_holder = snap.child
          ∧ (∀ old, f.cache_holder.lookup path = some old → snap = old)
          ∧ (f.cache_holder.lookup path = none →
              FileGroupHolder.new fs now path true = .ok snap)
          ∧ FolderHolder.update fs st none f' = .ok f' := by
    intro fs now st path f f' h
    unfold FolderHolder.submit_new_working_directory at h
    unfold LruCache.get at h
    unfold LruCache.lookup at h
    cases hl : alookup f.cache_holder.entries path with
    | some v =>
      simp only [hl, alookup_cons_self, outcome_bind_ok] at h
      rw [outcome_seq_eq_ok] at h
      obtain ⟨fu, hup, hok⟩ := h
      rw [update_none_ok_iff] at hup
      obtain ⟨sel, hsel, rfl⟩ := hup
      injection hok with hok
      subst hok
      refine ⟨rfl, rfl, rfl, v, rfl, by simp [LruCache.lookup], rfl, ?_, ?_, ?_⟩
      · intro old hold
        have hold' : alookup f.cache_holder.entries path = some old := hold
        rw [hl] at hold'
        exact Option.some_inj.mp hold'
      · intro h0
        have h0' : alookup f.cache_holder.entries path = none := h0
        rw [hl] at h0'
        cases h0'
      · rw [update_none_ok_iff]
        exact ⟨sel, hsel, rfl⟩
    | none =>
      simp only [hl, outcome_bind_ok] at h
      unfold FolderHolder.put at h
      rw [outcome_seq_eq_ok] at h
      obtain ⟨f2, hputres, h⟩ := h
      rw [outcome_seq_eq_ok] at hputres
      obtain ⟨holder, hnew, hf2⟩ := hputres
      injection hf2 with hf2
      subst hf2
      simp only at h
      cases hl2 : alookup (f.cache_holder.put path holder).2.entries path with
      | none =>
        simp only [hl2] at h
        cases h
      | some cr =>
        have hcr : cr = holder := lookup_put_self_of_some _ _ _ _ hl2
        simp only [hl2] at h
        rw [outcome_seq_eq_ok] at h
        obtain ⟨fu, hup, hok⟩ := h
        rw [update_none_ok_iff] at hup
        obtain ⟨sel, hsel, rfl⟩ := hup
        injection hok with hok
        subst hok
        refine ⟨rfl, rfl, rfl, cr, rfl, by simp [LruCache.lookup], rfl, ?_, ?_, ?_⟩
        · intro old hold
          have hold' : alookup f.cache_holder.entries path = some old := hold
          rw [hl] at hold'
          cases hold'
        · intro _
          rw [hcr]
          exact hnew
        · rw [update_none_ok_iff]
          exact ⟨sel, hsel, rfl⟩
  refine ⟨main, ?_⟩
  intro fs now₁ now₂ now₃ st A B f f1 f2 f3 vA h1 h2 h3 hA
  obtain ⟨-, -, -, snap, -, hlook, hchild, hreuse, -, -⟩ := main fs now₃ st A f2 f3 h3
  have hsnap : snap = vA := hreuse vA hA
  subst hsnap
  exact ⟨hlook, hchild⟩

/-- C2 witness: the round trip enter(a); enter(root); enter(a) on a concrete
filesystem, with the cached snapshot for a reused. -/
theorem submit_new_working_directory_spec_witness :
    FolderHolder.submit_new_working_directory fsDemo 1 stBrowse ["a"] f0 = .ok fA1
    ∧ FolderHolder.submit_new_working_directory fsDemo 2 stBrowse [] fA1 = .ok fB2
    ∧ FolderHolder.submit_new_working_directory fsDemo 3 stBrowse ["a"] fB2 = .ok fA3
    ∧ fB2.cache_holder.lookup ["a"] = some vA2
    ∧ fA3.cache_holder.lookup ["a"] = some vA2
    ∧ fA3.current_holder = vA2.child
    ∧ fA3.current_directory = ["a"] ∧ fA3.input = "" ∧ fA3.expand_level = 0 := by
  have h1 : FolderHolder.submit_new_working_directory fsDemo 1 stBrowse ["a"] f0
      = .ok fA1 := by decide
  have h2 : FolderHolder.submit_new_working_directory fsDemo 2 stBrowse [] fA1
      = .ok fB2 := by decide
  have h3 : FolderHolder.submit_new_working_directory fsDemo 3 stBrowse ["a"] fB2
      = .ok fA3 := by decide
  have hv : fB2.cache_holder.lookup ["a"] = some vA2 := by decide
  have hround := submit_new_working_directory_spec.2 fsDemo 1 2 3 stBrowse ["a"] []
    f0 fA1 fB2 fA3 vA2 h1 h2 h3 hv
  have hmain := submit_new_working_directory_spec.1 fsDemo 3 stBrowse ["a"] fB2 fA3 h3
  exact ⟨h1, h2, h3, hv, hround.1, hround.2, hmain.1, hmain.2.1, hmain.2.2.1⟩

/-- C3: when canonicalization of the highlighted entry fails inside submit,
then in history mode the stale entry is removed from selected at that index
and its full path is popped from the cache (everything else unchanged), so
it cannot resurface; in browse mode the current directory is re-read into
the cache and the selection recomputed instead; and drop_invalid_folder
invoked outside history mode returns a State error. -/
theorem submit_stale_recovery :
    (∀ (fs : FileSystem) (now : Nat) (m : MessageHolder) (idx : Nat)
        (removed : FileHolder) (e : AppError) (g : FileGroupHolder),
      m.state_holder.is_history_search = true →
      get_highlight_index_helper m.raw_highlight_index
        m.folder_holder.selected_path_holder.length = .ok idx →
      m.folder_holder.selected_path_holder.get? idx = some removed →
      removed.to_path_canonicalize fs = .err e →
      m.folder_holder.cache_holder.lookup removed.to_path = some g →
      ∃ m', MessageHolder.submit fs now m = .ok m'
        ∧ m'.folder_holder.selected_path_holder
            = m.folder_holder.selected_path_holder.eraseIdx idx
        ∧ m'.folder_holder.cache_holder.entries
            = eraseKey m.folder_holder.cache_holder.entries removed.to_path
        ∧ m'.folder_holder.cache_holder.lookup removed.to_path = none
        ∧ m'.folder_holder.current_holder = m.folder_holder.current_holder
        ∧ m'.folder_holder.current_directory = m.folder_holder.current_directory
        ∧ m'.folder_holder.input = m.folder_holder.input
        ∧ m'.state_holder = m.state_holder
        ∧ m'.file_opened = m.file_opened)
    ∧ (∀ (fs : FileSystem) (now : Nat) (m : MessageHolder) (idx : Nat)
        (removed : FileHolder) (e : AppError) (f' : FolderHolder),
      m.state_holder.is_history_search = false →
      get_highlight_index_helper m.raw_highlight_index
        m.folder_holder.selected_path_holder.length = .ok idx →
      m.folder_holder.selected_path_holder.get? idx = some removed →
      removed.to_path_canonicalize fs = .err e →
      0 < m.folder_holder.cache_holder.cap →
      FolderHolder.refresh fs now m.state_holder m.folder_holder = .ok f' →
      MessageHolder.submit fs now m = .ok { m with folder_holder := f' }
      ∧ ∃ gnew, FileGroupHolder.new fs now m.folder_holder.current_directory true
            = .ok gnew
        ∧ f'.current_holder = gnew.child
        ∧ f'.cache_holder.lookup m.folder_holder.current_directory = some gnew
        ∧ FolderHolder.update fs m.state_holder none f' = .ok f')
    ∧ (∀ (st : StateHolder) (idx : Nat) (f : FolderHolder),
        st.is_history_search = false →
        FolderHolder.drop_invalid_folder st idx f
          = .err (.State "Must be in history mode")) := by
  refine ⟨?_, ?_, ?_⟩
  · intro fs now m idx removed e g hhist hidx hget hcanon hcache
    have hemp : m.folder_holder.selected_path_holder.isEmpty = false := by
      cases hsel : m.folder_holder.selected_path_holder with
      | nil => rw [hsel] at hget; cases hget
      | cons a as => rfl
    have hcache' : alookup m.folder_holder.cache_holder.entries removed.to_path
        = some g := hcache
    unfold MessageHolder.submit MessageHolder.get_highlight_index FolderHolder.submit
    unfold FolderHolder.drop_invalid_folder LruCache.pop LruCache.lookup
    simp only [hemp, Bool.false_eq_true, if_false, hidx, outcome_bind_ok, hget,
      hcanon, hhist, eq_self_iff_true, if_true, Bool.not_true, hcache']
    refine ⟨_, rfl, rfl, rfl, ?_, rfl, rfl, rfl, rfl, rfl⟩
    simp [LruCache.lookup]
  · intro fs now m idx removed e f' hhist hidx hget hcanon hcap hres
    have hemp : m.folder_holder.selected_path_holder.isEmpty = false := by
      cases hsel : m.folder_holder.selected_path_holder with
      | nil => rw [hsel] at hget; cases hget
      | cons a as => rfl
    constructor
    · unfold MessageHolder.submit MessageHolder.get_highlight_index FolderHolder.submit
      simp only [hemp, Bool.false_eq_true, if_false, hidx, outcome_bind_ok, hget,
        hcanon, hhist, hres, outcome_bind_ok]
    · unfold FolderHolder.refresh at hres
      rw [outcome_seq_eq_ok] at hres
      obtain ⟨gnew, hnew, hres⟩ := hres
      rw [outcome_seq_eq_ok] at hres
      obtain ⟨fu, hup, hres⟩ := hres
      have hupc := hup
      rw [update_none_ok_iff] at hupc
      obtain ⟨sel, hsel, hfu⟩ := hupc
      cases hput : fu.cache_holder.put fu.current_directory gnew with
      | mk old c =>
        rw [hput] at hres
        cases old with
        | none => cases hres
        | some gold =>
          injection hres with hres
          subst hres
          subst hfu
          refine ⟨gnew, hnew, rfl, ?_, ?_⟩
          · have hc : c = (m.folder_holder.cache_holder.put
                m.folder_holder.current_directory gnew).2 := by
              have h2 := congrArg Prod.snd hput
              exact h2.symm
            rw [hc]
            exact lookup_put_self _ _ _ hcap
          · rw [update_none_ok_iff]
            refine ⟨sel, ?_, rfl⟩
            unfold computeSelected at hsel ⊢
            rw [hhist] at hsel ⊢
            simp only [Bool.false_eq_true, if_false] at hsel ⊢
            exact hsel
  · intro st idx f hhist
    unfold FolderHolder.drop_invalid_folder
    rw [hhist]
    simp

/-- C3 witness: on a concrete filesystem, submitting the stale history entry
gone drops it from both selected and the cache; submitting the same stale
entry in browse mode refreshes the current directory; drop_invalid_folder in
browse mode yields the State error. -/
theorem submit_stale_recovery_witness :
    MessageHolder.submit fsDemo 9 mHist = .ok mHistAfter
    ∧ mHistAfter.folder_holder.selected_path_holder = []
    ∧ mHistAfter.folder_holder.cache_holder.lookup ["gone"] = none
    ∧ MessageHolder.submit fsDemo 9 mBrowseStale
        = .ok { mBrowseStale with folder_holder := fBrowseRefreshed }
    ∧ FolderHolder.drop_invalid_folder stBrowse 0 fBrowseStale
        = .err (.State "Must be in history mode") := by
  obtain ⟨m', hsub, hsel', hent, hlook, hrest⟩ :=
    submit_stale_recovery.1 fsDemo 9 mHist 0 fhGone (.Path "Unable to canonicalize")
      gDummy (by decide) (by decide) (by decide) (by decide) (by decide)
  have hm : m' = mHistAfter := by
    have hdec : MessageHolder.submit fsDemo 9 mHist = .ok mHistAfter := by decide
    rw [hsub] at hdec
    injection hdec
  subst hm
  obtain ⟨hsubB, hrestB⟩ :=
    submit_stale_recovery.2.1 fsDemo 9 mBrowseStale 0 fhGone
      (.Path "Unable to canonicalize") fBrowseRefreshed (by decide) (by decide)
      (by decide) (by decide) (by decide) (by decide)
  refine ⟨hsub, ?_, hlook, hsubB,
    submit_stale_recovery.2.2 stBrowse 0 fBrowseStale (by decide)⟩
  rw [hsel']
  decide

theorem canon_of_consistent (fs : FileSystem) (h : FileHolder)
    (hc : entryConsistent fs h) :
    h.to_path_canonicalize fs = .ok h.to_path := by
  obtain ⟨hnorm, hflag⟩ := hc
  unfold FileHolder.to_path_canonicalize canonicalizeFsPath
  rw [hnorm]
  have hex : fs.pathExists h.to_path = true := by
    unfold FileSystem.pathExists
    by_cases hif : h.is_file
    · rw [if_pos hif] at hflag
      rw [hflag.1, Bool.or_true]
    · rw [if_neg hif] at hflag
      rw [hflag, Bool.true_or]
  simp [hex]

theorem filterMap_canon_of_consistent (fs : FileSystem) :
    ∀ l : List FileHolder, (∀ h ∈ l, entryConsistent fs h) →
      l.filterMap (fun h => (h.to_path_canonicalize fs).toOption)
        = l.map FileHolder.to_path := by
  intro l hl
  induction l with
  | nil => rfl
  | cons h hs ih =>
    have hc := hl h (List.mem_cons_self h hs)
    simp only [List.filterMap_cons, List.map_cons, canon_of_consistent fs h hc,
      outcome_toOption_ok]
    rw [ih (fun x hx => hl x (List.mem_cons_of_mem h hx))]

theorem mapO_expandPath_characterize (fs : FileSystem) (now : Nat) :
    ∀ (l : List FileHolder) (tails : List (List FileHolder)),
      (∀ h ∈ l, entryConsistent fs h) →
      mapO (expandPath fs now) (l.map FileHolder.to_path) = .ok tails →
      List.Forall₂ (fun (h : FileHolder) (t : List FileHolder) =>
        (h.is_file = true ∧ t = [h])
        ∨ (h.is_file = false ∧ ∃ g, FileGroupHolder.new fs now h.to_path false = .ok g
            ∧ t = g.child)) l tails := by
  intro l
  induction l with
  | nil =>
    intro tails _ hmap
    simp only [List.map_nil, mapO, Outcome.ok.injEq] at hmap
    subst hmap
    exact List.Forall₂.nil
  | cons h hs ih =>
    intro tails hl hmap
    simp only [List.map_cons, mapO] at hmap
    rw [outcome_seq_eq_ok] at hmap
    obtain ⟨t, ht, hmap⟩ := hmap
    rw [outcome_seq_eq_ok] at hmap
    obtain ⟨ts, hts, hmap⟩ := hmap
    injection hmap with hmap
    subst hmap
    have hc := hl h (List.mem_cons_self h hs)
    refine List.Forall₂.cons ?_ (ih ts (fun x hx => hl x (List.mem_cons_of_mem h hx)) hts)
    obtain ⟨hnorm, hflag⟩ := hc
    by_cases hif : h.is_file
    · left
      refine ⟨hif, ?_⟩
      rw [if_pos hif] at hflag
      unfold expandPath at ht
      rw [hflag.2] at ht
      simp only [Bool.false_eq_true, if_false] at ht
      unfold FileHolder.try_from at ht
      unfold FileHolder.to_path at ht
      rw [List.getLast?_concat, List.dropLast_concat] at ht
      simp only [outcome_bind_ok, Outcome.ok.injEq] at ht
      subst ht
      have hfile : fs.isFile (h.parent ++ [h.file_name]) = h.is_file := by
        rw [hif]
        exact hflag.1
      rw [hfile]
    · right
      have hif' : h.is_file = false := Bool.eq_false_iff.mpr hif
      refine ⟨hif', ?_⟩
      rw [if_neg hif] at hflag
      unfold expandPath at ht
      rw [hflag] at ht
      simp only [if_true] at ht
      rw [outcome_seq_eq_ok] at ht
      obtain ⟨g, hg, htg⟩ := ht
      injection htg with htg
      exact ⟨g, hg, htg.symm⟩

/-- C4: a successful expand on a non-empty current_holder keeps element 0
fixed, replaces every other entry backed by a directory with that
directory's freshly loaded children (loaded without the parent shortcut)
and keeps every file entry unchanged, flattens the result into the new
current_holder, leaves the cache untouched (the sub-reads are not cached),
recomputes selected, and increases expand_level by exactly one. -/
theorem expand_spec (fs : FileSystem) (now : Nat) (st : StateHolder)
    (f f' : FolderHolder) (first : FileHolder) (rest : List FileHolder)
    (hch : f.current_holder = first :: rest)
    (hcons : ∀ h ∈ rest, entryConsistent fs h)
    (hlvl : f.expand_level < USIZE_MAX)
    (hexp : FolderHolder.expand fs now st f = .ok f') :
    f'.expand_level = f.expand_level + 1
    ∧ f'.cache_holder = f.cache_holder
    ∧ f'.current_directory = f.current_directory
    ∧ f'.input = f.input
    ∧ (∃ tails : List (List FileHolder),
        List.Forall₂ (fun (h : FileHolder) (t : List FileHolder) =>
          (h.is_file = true ∧ t = [h])
          ∨ (h.is_file = false ∧ ∃ g, FileGroupHolder.new fs now h.to_path false = .ok g
              ∧ t = g.child)) rest tails
        ∧ f'.current_holder = first :: concatAll tails)
    ∧ FolderHolder.update fs st none f' = .ok f' := by
  unfold FolderHolder.expand at hexp
  rw [hch] at hexp
  simp only [List.head?_cons, List.drop_succ_cons, List.drop_zero] at hexp
  rw [filterMap_canon_of_consistent fs rest hcons] at hexp
  rw [outcome_seq_eq_ok] at hexp
  obtain ⟨results, hres, hexp⟩ := hexp
  rw [outcome_seq_eq_ok] at hexp
  obtain ⟨fu, hup, hok⟩ := hexp
  rw [update_none_ok_iff] at hup
  obtain ⟨sel, hsel, rfl⟩ := hup
  injection hok with hok
  subst hok
  refine ⟨?_, rfl, rfl, rfl, ⟨results, mapO_expandPath_characterize fs now rest results
    hcons hres, rfl⟩, ?_⟩
  · show usizeSatSucc f.expand_level = f.expand_level + 1
    unfold usizeSatSucc
    omega
  · rw [update_none_ok_iff]
    exact ⟨sel, hsel, rfl⟩

/-- C4 witness: expanding a root listing with one directory and one file on
the concrete filesystem replaces the directory row by its two children,
keeps the file, keeps element 0, and bumps expand_level to 1. -/
theorem expand_spec_witness :
    FolderHolder.expand fsDemo 4 stBrowse fExp = .ok fExpOut
    ∧ fExpOut.expand_level = fExp.expand_level + 1
    ∧ fExpOut.cache_holder = fExp.cache_holder
    ∧ FolderHolder.update fsDemo stBrowse none fExpOut = .ok fExpOut
    ∧ fExpOut.current_holder = [aEntry, xEntry, yEntry, fEntry] := by
  have hexp : FolderHolder.expand fsDemo 4 stBrowse fExp = .ok fExpOut := by decide
  have hmain := expand_spec fsDemo 4 stBrowse fExp fExpOut aEntry [dEntry, fEntry]
    (by decide) (by decide) (by decide) hexp
  exact ⟨hexp, hmain.1, hmain.2.1, hmain.2.2.2.2.2, by decide⟩

theorem dedupSeen_nodup {α : Type} [DecidableEq α] :
    ∀ l seen : List α, (dedupSeen l seen).Nodup ∧ ∀ x ∈ dedupSeen l seen, x ∉ seen := by
  intro l
  induction l with
  | nil => intro seen; exact ⟨List.nodup_nil, by simp [dedupSeen]⟩
  | cons a as ih =>
    intro seen
    by_cases hmem : a ∈ seen
    · simp only [dedupSeen, if_pos hmem]
      exact ih seen
    · simp only [dedupSeen, if_neg hmem]
      obtain ⟨hnd, hnot⟩ := ih (a :: seen)
      refine ⟨List.nodup_cons.mpr ⟨?_, hnd⟩, ?_⟩
      · intro hin
        exact (hnot a hin) (List.mem_cons_self a seen)
      · intro x hx
        rcases List.mem_cons.mp hx with rfl | hx'
        · exact hmem
        · intro hxseen
          exact (hnot x hx') (List.mem_cons_of_mem a hxseen)

theorem collapseLoop_spec (fs : FileSystem) (cur : FsPath) (lvl : Nat) :
    ∀ (items : List FileHolder) (seen : List FsPath) (out : List FileHolder),
      collapseLoop fs cur lvl items seen = .ok out →
      ∃ keys, mapO (collapseKey fs cur lvl) items = .ok keys
        ∧ mapO (FileHolder.try_from fs) (dedupSeen keys seen) = .ok out := by
  intro items
  induction items with
  | nil =>
    intro seen out h
    simp only [collapseLoop, Outcome.ok.injEq] at h
    subst h
    exact ⟨[], rfl, rfl⟩
  | cons item rest ih =>
    intro seen out h
    unfold collapseLoop at h
    rw [outcome_seq_eq_ok] at h
    obtain ⟨key, hkey, h⟩ := h
    by_cases hmem : key ∈ seen
    · rw [if_pos hmem] at h
      obtain ⟨keys', hkeys, hdedup⟩ := ih seen out h
      refine ⟨key :: keys', ?_, ?_⟩
      · simp only [mapO, hkey, hkeys, outcome_bind_ok]
      · simp only [dedupSeen, if_pos hmem, hdedup]
    · rw [if_neg hmem] at h
      rw [outcome_seq_eq_ok] at h
      obtain ⟨fh, hfh, h⟩ := h
      rw [outcome_seq_eq_ok] at h
      obtain ⟨tail, htail, h⟩ := h
      injection h with h
      subst h
      obtain ⟨keys', hkeys, hdedup⟩ := ih (key :: seen) tail htail
      refine ⟨key :: keys', ?_, ?_⟩
      · simp only [mapO, hkey, hkeys, outcome_bind_ok]
      · simp only [dedupSeen, if_neg hmem, mapO, hfh, hdedup, outcome_bind_ok]

theorem collapseKey_char (fs : FileSystem) (cur : FsPath) (lvl : Nat)
    (item : FileHolder) (k : FsPath) (h : collapseKey fs cur lvl item = .ok k) :
    ∃ rel, item.relative_to cur = .ok rel ∧
      ((lvl < (rel.data.filter (fun c => c = '/')).length
          ∧ canonicalizeFsPath fs item.parent = some k)
        ∨ ((rel.data.filter (fun c => c = '/')).length ≤ lvl
          ∧ item.to_path_canonicalize fs = .ok k)) := by
  unfold collapseKey at h
  rw [outcome_seq_eq_ok] at h
  obtain ⟨rel, hrel, h⟩ := h
  refine ⟨rel, hrel, ?_⟩
  by_cases hlt : lvl < (rel.data.filter (fun c => c = '/')).length
  · rw [if_pos hlt] at h
    cases hcan : canonicalizeFsPath fs item.parent with
    | none => rw [hcan] at h; cases h
    | some kk =>
      rw [hcan] at h
      injection h with h
      exact Or.inl ⟨hlt, congrArg some h⟩
  · rw [if_neg hlt] at h
    exact Or.inr ⟨Nat.le_of_not_lt hlt, h⟩

/-- C5: collapse is the identity (returning Ok) at expand_level 0; otherwise
it decrements the level by one and rebuilds the list from the existing
flattened one, keeping element 0 fixed: every other entry is mapped to its
canonical re-aggregation key (the parent directory when its depth, counted
as '/' separators of its rendering relative to the current directory,
exceeds the new level; itself otherwise), duplicate keys are collapsed to
one row in first-occurrence order, and selected is recomputed. -/
theorem collapse_spec :
    (∀ (fs : FileSystem) (st : StateHolder) (f : FolderHolder),
      f.expand_level = 0 → FolderHolder.collapse fs st f = .ok f)
    ∧ (∀ (fs : FileSystem) (st : StateHolder) (f f' : FolderHolder)
        (first : FileHolder) (rest : List FileHolder),
        f.current_holder = first :: rest →
        0 < f.expand_level →
        FolderHolder.collapse fs st f = .ok f' →
        f'.expand_level = f.expand_level - 1
        ∧ f'.cache_holder = f.cache_holder
        ∧ f'.current_directory = f.current_directory
        ∧ f'.input = f.input
        ∧ (∃ (keys : List FsPath) (tail : List FileHolder),
            List.Forall₂ (fun (h : FileHolder) (k : FsPath) =>
              ∃ rel, FileHolder.relative_to h f.current_directory = .ok rel ∧
                ((f.expand_level - 1 < (rel.data.filter (fun c => c = '/')).length
                    ∧ canonicalizeFsPath fs h.parent = some k)
                  ∨ ((rel.data.filter (fun c => c = '/')).length ≤ f.expand_level - 1
                    ∧ FileHolder.to_path_canonicalize fs h = .ok k))) rest keys
            ∧ mapO (FileHolder.try_from fs) (dedupSeen keys []) = .ok tail
            ∧ (dedupSeen keys []).Nodup
            ∧ f'.current_holder = first :: tail)
        ∧ FolderHolder.update fs st none f' = .ok f') := by
  constructor
  · intro fs st f h0
    unfold FolderHolder.collapse
    rw [if_pos h0]
  · intro fs st f f' first rest hch hpos hcol
    unfold FolderHolder.collapse at hcol
    rw [if_neg (Nat.pos_iff_ne_zero.mp hpos)] at hcol
    rw [hch] at hcol
    simp only [List.head?_cons, List.drop_succ_cons, List.drop_zero] at hcol
    rw [outcome_seq_eq_ok] at hcol
    obtain ⟨tailres, hloop, hcol⟩ := hcol
    rw [update_none_ok_iff] at hcol
    obtain ⟨sel, hsel, rfl⟩ := hcol
    obtain ⟨keys, hkeys, hdedup⟩ := collapseLoop_spec fs f.current_directory
      (f.expand_level - 1) rest [] tailres hloop
    refine ⟨rfl, rfl, rfl, rfl, ⟨keys, tailres, ?_, hdedup,
      (dedupSeen_nodup keys []).1, rfl⟩, ?_⟩
    · exact List.Forall₂.imp
        (fun a b hk => collapseKey_char fs f.current_directory (f.expand_level - 1) a b hk)
        (mapO_forall2 _ rest keys hkeys)
    · rw [update_none_ok_iff]
      exact ⟨sel, hsel, rfl⟩

/-- C5 witness: collapsing a flattened root view at level 1 re-aggregates
the two children of d into a single row for d, keeps the file row and
element 0, and returns to level 0; collapse at level 0 is the identity. -/
theorem collapse_spec_witness :
    FolderHolder.collapse fsDemo stBrowse fColl = .ok fCollOut
    ∧ fCollOut.expand_level = 0
    ∧ fCollOut.current_holder = [aEntry, dEntry, fEntry]
    ∧ FolderHolder.collapse fsDemo stBrowse fExp = .ok fExp := by
  have hcol : FolderHolder.collapse fsDemo stBrowse fColl = .ok fCollOut := by decide
  have hmain := collapse_spec.2 fsDemo stBrowse fColl fCollOut aEntry
    [xEntry, yEntry, fEntry] (by decide) (by decide) hcol
  exact ⟨hcol, hmain.1, by decide, collapse_spec.1 fsDemo stBrowse fExp (by decide)⟩

/-- C8: evaluation at the failing input. FileGroupHolder::new pushes the
synthetic ".." entry first but then sorts the whole vector by file name, so
in a directory containing a file named "!a" (which precedes ".."
byte-lexicographically) position 0 holds "!a" and the shortcut lands at
position 1 — element 0 of the listing is not the parent shortcut, although
the expand loop documents skipping element 0 as the ".." case. -/
theorem filegroup_shortcut_not_prefixed :
    FileGroupHolder.new fsBang 0 ["d"] true =
      .ok { child := [{ parent := ["d"], file_name := "!a", is_file := true },
                      { parent := ["d"], file_name := "..", is_file := false }],
            update_time := 0 }
    ∧ (FileGroupHolder.new fsBang 0 ["d"] true).getOk.child.head?
        = some { parent := ["d"], file_name := "!a", is_file := true }
    ∧ ((FileGroupHolder.new fsBang 0 ["d"] true).getOk.child.head?.map
        (fun h => h.file_name)) ≠ some ".." := by
  refine ⟨by decide, by decide, by decide⟩

/-- C10: with an empty selected list, submit and delete return Ok
immediately: the controller state is returned unchanged and the filesystem
is untouched, so the unguarded modulo and Vec indexing further down are
never reached from these entry points. -/
theorem submit_delete_empty_guard (fs : FileSystem) (now : Nat) (m : MessageHolder)
    (h : m.folder_holder.selected_path_holder = []) :
    MessageHolder.submit fs now m = .ok m
    ∧ MessageHolder.delete fs now m = .ok (m, fs) := by
  unfold MessageHolder.submit MessageHolder.delete
  rw [h]
  simp

/-- C10 witness: the guard theorem applied to a concrete state with an empty
selection. -/
theorem submit_delete_empty_guard_witness :
    MessageHolder.submit fsDemo 5 mEmpty = .ok mEmpty
    ∧ MessageHolder.delete fsDemo 5 mEmpty = .ok (mEmpty, fsDemo) :=
  submit_delete_empty_guard fsDemo 5 mEmpty rfl

end Athena
